import Mathlib

/-!
Verification of the codefacilitators reviewer-assignment engine.

The definitions below are a shallow embedding of the current version of
`src/main.ts` (the second document in `src/unnamed/part_000`, lines 212-449):
`parseFileData`, `filterReviewers`, `separateReviewers`, and the
submission decision at the end of `run`.  External collaborators are
parameters: the gitignore-style pattern matcher (the `ignore` npm library)
is a `String → String → Bool` argument, and the GitHub team-membership
call `octokit.rest.teams.listMembersInOrg` is a `GroupLookup` argument
whose `none` result models the call throwing (the `catch` branch).

The JavaScript string methods used by the source (`split`, `startsWith`,
`includes`, `trim`, `substring`, `endsWith`) are embedded as structurally
recursive functions over the character list underlying a `String`, so
that every definition evaluates by kernel reduction.
-/

/-- Result type of the external team-membership lookup
(`octokit.rest.teams.listMembersInOrg`): `some members` models a
successful call returning the member logins, `none` models the call
throwing (team not found, insufficient permission, ...). -/
abbrev GroupLookup := String → String → Option (List String)

/-- Character class of the JavaScript regex `\s` restricted to the
characters that can occur in practice inside the rule-file text. -/
def isJsWhitespace (c : Char) : Bool :=
  c == ' ' || c == '\t' || c == '\n' || c == '\r' || c == '\x0b' || c == '\x0c'

/-- Embedding of JavaScript `split` with a one-character separator on
the underlying character list: split at every occurrence of the
separator, keeping empty pieces (so a leading separator produces a
leading empty piece, exactly as in JavaScript). -/
def jsSplitChar (sep : Char) : List Char → List (List Char)
  | [] => [[]]
  | c :: rest =>
    match jsSplitChar sep rest with
    | [] => [[]]
    | h :: t => if c == sep then [] :: h :: t else (c :: h) :: t

/-- Embedding of the JavaScript expression `s.split(sep)` for a
one-character separator `sep` (the source only splits on `' '`, `'\n'`
and `'/'`). -/
def jsSplit (s : String) (sep : Char) : List String :=
  (jsSplitChar sep s.data).map String.mk

/-- Embedding of the JavaScript expression `s.startsWith(pre)`. -/
def jsStartsWith (s pre : String) : Bool :=
  List.isPrefixOf pre.data s.data

/-- Embedding of the JavaScript expression `s.endsWith(suf)`. -/
def jsEndsWith (s suf : String) : Bool :=
  List.isSuffixOf suf.data s.data

/-- Embedding of the JavaScript expression `s.includes(c)` for a
one-character argument. -/
def jsIncludes (s : String) (c : Char) : Bool :=
  s.data.contains c

/-- Embedding of the JavaScript expression `s.trim()`: remove leading
and trailing whitespace. -/
def jsTrim (s : String) : String :=
  String.mk (((s.data.dropWhile isJsWhitespace).reverse.dropWhile
    isJsWhitespace).reverse)

/-- Embedding of the JavaScript expression `s.substring(n)`: drop the
first `n` characters. -/
def jsDrop (s : String) (n : Nat) : String :=
  String.mk (s.data.drop n)

/-- Drop the last `n` characters of a string (used only by the modelled
pattern matcher below). -/
def jsDropRight (s : String) (n : Nat) : String :=
  String.mk (s.data.take (s.data.length - n))

/-- Collapse every run of `' '` characters to a single `' '`. -/
def squeezeSpaces : List Char → List Char
  | [] => []
  | [c] => [c]
  | c :: d :: cs =>
    if c == ' ' && d == ' ' then squeezeSpaces (d :: cs)
    else c :: squeezeSpaces (d :: cs)

/-- Embedding of the JavaScript expression `line.replace(/\s+/g, ' ')`:
every maximal run of whitespace characters is replaced by one space. -/
def collapseWhitespace (s : String) : String :=
  String.mk (squeezeSpaces (s.data.map (fun c => if isJsWhitespace c then ' ' else c)))

/-- Embedding of one iteration of the `for (const reviewer of
parsedLined.slice(1))` loop body of `parseFileData`: given the current
value of the `finalReviewers` variable and the next target token, return
the new value of `finalReviewers`.  Note that every assignment in the
source overwrites `finalReviewers` rather than appending to it, and that
the `catch` branch of a failed lookup leaves it unchanged. -/
def stepTarget (lookup : GroupLookup) (addGroupsDirectly : Bool)
    (finalReviewers : Option (List String)) (reviewer : String) :
    Option (List String) :=
  if !jsStartsWith reviewer "@" then finalReviewers
  else
    let reviewerName := jsDrop reviewer 1
    if jsIncludes reviewerName '/' then
      if addGroupsDirectly then some [reviewerName]
      else
        let groupsSplitted := jsSplit reviewerName '/'
        match lookup (groupsSplitted.getD 0 "") (groupsSplitted.getD 1 "") with
        | some members => some members
        | none => finalReviewers
    else some [reviewerName]

/-- Embedding of the whole target loop of `parseFileData`: fold
`stepTarget` over the target tokens, starting from the current
`finalReviewers` value (`none` at the top of the per-line iteration). -/
def processTargets (lookup : GroupLookup) (addGroupsDirectly : Bool)
    (targets : List String) (finalReviewers : Option (List String)) :
    Option (List String) :=
  targets.foldl (stepTarget lookup addGroupsDirectly) finalReviewers

/-- Embedding of one iteration of the per-line loop of `parseFileData`:
the list of reviewers pushed onto the accumulating `reviewers` array for
one (changed file, line) pair.  The line is skipped when it starts with
the comment marker at column zero or is blank after trimming, or when
whitespace-collapsing and splitting on `' '` yields fewer than two
tokens; otherwise the first token is the pattern and the remaining tokens
are processed as target candidates when the pattern matches the file. -/
def processLine (matchesFn : String → String → Bool) (lookup : GroupLookup)
    (addGroupsDirectly : Bool) (file line : String) : List String :=
  if jsStartsWith line "#" || jsTrim line == "" then []
  else
    let parsedLined := jsSplit (collapseWhitespace line) ' '
    if parsedLined.length < 2 then []
    else
      let finalReviewers : Option (List String) :=
        if matchesFn (parsedLined.headD "") file then
          processTargets lookup addGroupsDirectly parsedLined.tail none
        else none
      finalReviewers.getD []

/-- Embedding of `parseFileData` (part_000 lines 286-373): for every
changed file and every line of the rule-file text, in order, append the
reviewers produced by that (file, line) pair. -/
def parseFileData (matchesFn : String → String → Bool) (lookup : GroupLookup)
    (addGroupsDirectly : Bool) (data : String) (changedFiles : List String) :
    List String :=
  changedFiles.flatMap (fun file =>
    (jsSplit data '\n').flatMap (fun line =>
      processLine matchesFn lookup addGroupsDirectly file line))

/-- Embedding of the pure core of `filterReviewers` (part_000 lines
390-416): keep an entry exactly when its index equals the index of its
first occurrence and it differs from the pull-request author login. -/
def filterReviewers (reviewers : List String) (author : String) : List String :=
  (reviewers.enum.filter
    (fun p => reviewers.indexOf p.2 == p.1 && p.2 != author)).map Prod.snd

/-- Embedding of `separateReviewers` (part_000 lines 375-388): entries
containing a `'/'` contribute only their team-slug component (the part
after the first `'/'`) to the team list, all other entries go verbatim
to the individual list, order preserved. -/
def separateReviewers : List String → List String × List String
  | [] => ([], [])
  | reviewer :: rest =>
    if jsIncludes reviewer '/' then
      ((separateReviewers rest).1,
        ((jsSplit reviewer '/').getD 1 "") :: (separateReviewers rest).2)
    else (reviewer :: (separateReviewers rest).1, (separateReviewers rest).2)

/-- Embedding of the tail of `run` (part_000 lines 255-277): parse,
filter, and either exit successfully without calling
`requestReviewers` (`none`) when the filtered list is empty, or submit
the partitioned pair `(reviewersList, teamReviewersList)` (`some`). -/
def runSubmission (matchesFn : String → String → Bool) (lookup : GroupLookup)
    (addGroupsDirectly : Bool) (data : String) (changedFiles : List String)
    (author : String) : Option (List String × List String) :=
  let reviewers := parseFileData matchesFn lookup addGroupsDirectly data changedFiles
  let filteredReviewers := filterReviewers reviewers author
  if filteredReviewers.length = 0 then none
  else some (separateReviewers filteredReviewers)

/-- Modelled from the spec: the gitignore-style matching primitive of
section 4.1 (the external `ignore` npm library wrapped by the Pattern
Matcher; its code is not part of this repository), restricted to the
pattern shapes used by the scenarios of the spec: a `*.ext` pattern
matches paths ending in `.ext`, a `dir/**` pattern matches paths under
`dir/`, any other pattern matches only itself, and the empty pattern
matches nothing. -/
def globMatches (pattern path : String) : Bool :=
  if jsEndsWith pattern "/**" then jsStartsWith path (jsDropRight pattern 2)
  else if jsStartsWith pattern "*." then jsEndsWith path (jsDrop pattern 1)
  else pattern == path

/-- Written from the words of the spec (section 4.4, Step 2):
deduplicate by identity keeping the first occurrence, scanning left to
right and remembering every element already scanned. -/
def dedupKeepFirstAux (seen : List String) : List String → List String
  | [] => []
  | x :: xs =>
    if x ∈ seen then dedupKeepFirstAux (seen ++ [x]) xs
    else x :: dedupKeepFirstAux (seen ++ [x]) xs

/-- Written from the words of the spec: deduplication keeping the first
occurrence of each identity, in first-seen order. -/
def dedupKeepFirst (l : List String) : List String := dedupKeepFirstAux [] l

/-! Helper lemmas about single target-loop iterations. -/

/-- Stepping over a token without the reviewer sigil leaves the
`finalReviewers` variable unchanged and consults nothing. -/
lemma stepTarget_no_sigil (lookup : GroupLookup) (agd : Bool)
    (acc : Option (List String)) (tok : String)
    (h : jsStartsWith tok "@" = false) :
    stepTarget lookup agd acc tok = acc := by
  simp [stepTarget, h]

/-- Stepping over a group token whose membership lookup fails leaves the
`finalReviewers` variable unchanged (the `catch` branch). -/
lemma stepTarget_failed_lookup (lookup : GroupLookup)
    (acc : Option (List String)) (tok : String)
    (h1 : jsStartsWith tok "@" = true)
    (h2 : jsIncludes (jsDrop tok 1) '/' = true)
    (h3 : lookup ((jsSplit (jsDrop tok 1) '/').getD 0 "")
            ((jsSplit (jsDrop tok 1) '/').getD 1 "") = none) :
    stepTarget lookup false acc tok = acc := by
  simp only [stepTarget, h1, h2, h3, Bool.not_true, Bool.false_eq_true,
    if_false, ite_true, ite_false, Bool.if_false_left, reduceIte]

/-- Claim C3: in expand mode (`addGroupsDirectly = false`), a group
target whose membership lookup fails contributes zero reviewers for that
rule, and the processing of the remaining targets of the rule continues
unchanged: dropping the failing token from the target list does not
change the result, for any surrounding tokens and any prior state. -/
theorem C3_failed_lookup_contributes_nothing (lookup : GroupLookup)
    (tok : String) (pre post : List String) (acc : Option (List String))
    (h1 : jsStartsWith tok "@" = true)
    (h2 : jsIncludes (jsDrop tok 1) '/' = true)
    (h3 : lookup ((jsSplit (jsDrop tok 1) '/').getD 0 "")
            ((jsSplit (jsDrop tok 1) '/').getD 1 "") = none) :
    processTargets lookup false (pre ++ tok :: post) acc
      = processTargets lookup false (pre ++ post) acc := by
  simp only [processTargets, List.foldl_append, List.foldl_cons]
  rw [stepTarget_failed_lookup lookup _ tok h1 h2 h3]

/-- Witness for C3 at a concrete input: the failing group token
`@org/team` between two individual tokens is a no-op. -/
theorem C3_witness :
    processTargets (fun _ _ => none) false ["@alice", "@org/team", "@bob"] none
      = processTargets (fun _ _ => none) false ["@alice", "@bob"] none := by
  exact C3_failed_lookup_contributes_nothing (fun _ _ => none) "@org/team"
    ["@alice"] ["@bob"] none rfl rfl rfl

/-- Claim C7: a target candidate token that does not start with the
reviewer sigil is ignored entirely: dropping it from the target list
changes nothing, for every lookup function (so no group lookup is
triggered by it), every mode and every prior state; consequently it never
reaches either output list. -/
theorem C7_nonsigil_token_ignored (lookup : GroupLookup) (agd : Bool)
    (tok : String) (pre post : List String) (acc : Option (List String))
    (h : jsStartsWith tok "@" = false) :
    processTargets lookup agd (pre ++ tok :: post) acc
      = processTargets lookup agd (pre ++ post) acc := by
  simp only [processTargets, List.foldl_append, List.foldl_cons]
  rw [stepTarget_no_sigil lookup agd _ tok h]

/-- Witness for C7 at a concrete input: the sigil-less token `docs` is
skipped between two sigil-bearing tokens. -/
theorem C7_witness :
    processTargets (fun _ _ => none) true ["@alice", "docs", "@bob"] none
      = processTargets (fun _ _ => none) true ["@alice", "@bob"] none := by
  exact C7_nonsigil_token_ignored (fun _ _ => none) true "docs"
    ["@alice"] ["@bob"] none rfl

/-- Claim C1 (code bug evaluation): on the rule line `*.go @alice @bob`
with changed file `main.go`, the code contributes only `bob`: each
target resolution overwrites the per-line `finalReviewers` variable, so
only the last sigil-bearing target of a matching line survives, in any
mode and for any lookup function.  The claim (and the spec) say both
`alice` and `bob` are contributed. -/
theorem C1_last_target_wins_eval (lookup : GroupLookup) (agd : Bool) :
    parseFileData globMatches lookup agd "*.go @alice @bob" ["main.go"]
      = ["bob"] := rfl

/-- Claim C4 (code bug evaluation): in pass-through mode, on the rule
line `*.go @org/team @bob` with changed file `main.go` and author
`alice`, the submitted groups list is empty and the individuals list is
`[bob]`: the group target `@org/team` contributed nothing because the
later target overwrote the per-line `finalReviewers` variable.  The
claim says the target yields the team slug `team` in the groups
output. -/
theorem C4_passthrough_group_dropped_eval (lookup : GroupLookup) :
    runSubmission globMatches lookup true "*.go @org/team @bob" ["main.go"]
      "alice" = some (["bob"], []) := rfl

/-- Claim C5: scenario with rule file `*.go @alice @org/reviewers`,
changed files `main.go` and `README.md`, author `alice`, expand mode
with the lookup returning `[bob, carol]` for `org/reviewers`: the
output is individuals `[bob, carol]` and groups `[]`. -/
theorem C5_expand_scenario :
    runSubmission globMatches
      (fun o t => if o == "org" && t == "reviewers"
        then some ["bob", "carol"] else none)
      false "*.go @alice @org/reviewers" ["main.go", "README.md"] "alice"
      = some (["bob", "carol"], []) := rfl

/-- Claim C8: with rule file `docs/** @dave` and changed files
`[src/a.ts]`, no rule matches, so for every lookup function, mode and
author the run ends successfully without a reviewer-request submission
(`none` means the `requestReviewers` call is never reached). -/
theorem C8_no_match_no_submission (lookup : GroupLookup) (agd : Bool)
    (author : String) :
    runSubmission globMatches lookup agd "docs/** @dave" ["src/a.ts"] author
      = none := rfl

/-- Claim C9: resolution is deterministic and idempotent: two runs of
the parse-resolve-filter pipeline on the same rule text, changed files
and author, with group lookups that return identical results, produce
identical outputs. -/
theorem C9_deterministic (matchesFn : String → String → Bool)
    (lookup1 lookup2 : GroupLookup) (agd : Bool) (data : String)
    (files : List String) (author : String)
    (h : ∀ o t, lookup1 o t = lookup2 o t) :
    runSubmission matchesFn lookup1 agd data files author
      = runSubmission matchesFn lookup2 agd data files author := by
  have he : lookup1 = lookup2 := funext fun o => funext fun t => h o t
  rw [he]

/-- Witness for C9 at a concrete input. -/
theorem C9_witness :
    runSubmission globMatches (fun _ _ => none) false "*.go @alice"
      ["main.go"] "zed"
      = runSubmission globMatches (fun _ _ => id none) false "*.go @alice"
      ["main.go"] "zed" := by
  exact C9_deterministic globMatches (fun _ _ => none) (fun _ _ => id none)
    false "*.go @alice" ["main.go"] "zed" (fun _ _ => rfl)

/-- Claim C10: lines are inspected untrimmed.  First conjunct: a line
whose comment marker is preceded by whitespace is not skipped as a
comment; it is parsed as a rule with the empty string as pattern, and
with a matcher that accepts the empty pattern it even contributes the
reviewer `bob`.  Second conjunct: a rule line beginning with whitespace
gets the empty string as pattern and its intended pattern token `*.go`
is demoted to an ignored target candidate, so only `@alice` is
resolved.  Third conjunct: under the real matcher semantics, where the
empty pattern matches nothing, such a line contributes no reviewers at
all, even for a file its intended pattern would match. -/
theorem C10_untrimmed_line_parsing :
    (∀ (lookup : GroupLookup) (agd : Bool),
      processLine (fun p _ => p == "") lookup agd "a.ts" " # @bob" = ["bob"])
    ∧ (∀ (lookup : GroupLookup) (agd : Bool),
      processLine (fun p _ => p == "") lookup agd "main.go" "  *.go @alice"
        = ["alice"])
    ∧ (∀ (lookup : GroupLookup) (agd : Bool),
      processLine globMatches lookup agd "main.go" "  *.go @alice" = []) :=
  ⟨fun _ _ => rfl, fun _ _ => rfl, fun _ _ => rfl⟩

/-- Claim C2 counterexample: the claimed invariant fails.  In
pass-through mode, with rule file `a.go @bob` / `a.go @org/bob` and
author `alice`, the output is individuals `[bob]` and groups `[bob]`,
which are not disjoint; and with rule file `a.go @org/alice` and author
`alice`, the groups output is `[alice]`, which contains the author. -/
theorem C2_counterexample :
    (runSubmission globMatches (fun _ _ => none) true
      "a.go @bob\na.go @org/bob" ["a.go"] "alice" = some (["bob"], ["bob"]))
    ∧ (runSubmission globMatches (fun _ _ => none) true
      "a.go @org/alice" ["a.go"] "alice" = some ([], ["alice"]))
    ∧ ¬ List.Disjoint ["bob"] ["bob"]
    ∧ ("alice" : String) ∈ ["alice"] :=
  ⟨rfl, rfl, fun h => h (List.mem_singleton_self "bob")
    (List.mem_singleton_self "bob"), List.mem_singleton_self "alice"⟩

/-! Helper lemmas relating the index-based filter of the source to the
spec-side first-occurrence deduplication. -/

/-- Core refinement lemma: the index-based filter of the source, run on
the suffix `suf` of the full list `pre ++ suf` starting at absolute
position `pre.length`, agrees with first-occurrence deduplication that
has already scanned `pre`, followed by removal of the author `a`. -/
lemma filterAux_eq_dedupAux (a : String) :
    ∀ (suf pre : List String),
      ((List.enumFrom pre.length suf).filter
        (fun p => (pre ++ suf).indexOf p.2 == p.1 && p.2 != a)).map Prod.snd
      = (dedupKeepFirstAux pre suf).filter (fun r => r != a) := by
  intro suf
  induction suf with
  | nil => intro pre; simp [dedupKeepFirstAux]
  | cons x xs ih =>
    intro pre
    have henum : List.enumFrom pre.length (x :: xs)
        = (pre.length, x) :: List.enumFrom (pre.length + 1) xs := rfl
    have hrw : pre ++ x :: xs = (pre ++ [x]) ++ xs := by simp
    have hlen : pre.length + 1 = (pre ++ [x]).length := by simp
    by_cases hx : x ∈ pre
    · have h1 : List.indexOf x (pre ++ x :: xs) = List.indexOf x pre :=
        List.indexOf_append_of_mem hx
      have h2 : List.indexOf x pre < pre.length := List.indexOf_lt_length.mpr hx
      have h3 : (List.indexOf x (pre ++ x :: xs) == pre.length) = false := by
        rw [h1]
        exact beq_eq_false_iff_ne.mpr (Nat.ne_of_lt h2)
      rw [henum, List.filter_cons]
      simp only [h3, Bool.false_and, Bool.false_eq_true, if_false]
      rw [hrw, hlen]
      rw [ih (pre ++ [x])]
      simp only [dedupKeepFirstAux, if_pos hx]
    · have h1 : List.indexOf x (pre ++ x :: xs) = pre.length := by
        rw [List.indexOf_append_of_not_mem hx, List.indexOf_cons_self,
          Nat.add_zero]
      have h3 : (List.indexOf x (pre ++ x :: xs) == pre.length) = true :=
        beq_iff_eq.mpr h1
      rw [henum, List.filter_cons]
      simp only [h3, Bool.true_and]
      simp only [dedupKeepFirstAux, if_neg hx, List.filter_cons]
      cases hxa : (x != a)
      · simp only [hxa, Bool.false_eq_true, if_false]
        rw [hrw, hlen]
        exact ih (pre ++ [x])
      · simp only [hxa, if_true, List.map_cons]
        rw [hrw, hlen]
        rw [ih (pre ++ [x])]

/-- Refinement: the index-based filter of the source equals
first-occurrence deduplication followed by author removal. -/
lemma filterReviewers_eq_dedup (l : List String) (a : String) :
    filterReviewers l a = (dedupKeepFirst l).filter (fun r => r != a) := by
  have h := filterAux_eq_dedupAux a l []
  simpa [filterReviewers, dedupKeepFirst, List.enum] using h

/-- Membership in the deduplication accumulator: an element appears in
the result exactly when it appears in the remaining input and has not
been scanned before. -/
lemma mem_dedupKeepFirstAux (r : String) :
    ∀ (l seen : List String),
      r ∈ dedupKeepFirstAux seen l ↔ (r ∈ l ∧ r ∉ seen) := by
  intro l
  induction l with
  | nil => intro seen; simp [dedupKeepFirstAux]
  | cons x xs ih =>
    intro seen
    by_cases hx : x ∈ seen
    · simp only [dedupKeepFirstAux, if_pos hx, ih (seen ++ [x]),
        List.mem_append, List.mem_singleton, List.mem_cons,
        List.mem_nil_iff, or_false]
      constructor
      · rintro ⟨h1, h2⟩
        exact ⟨Or.inr h1, fun hc => h2 (Or.inl hc)⟩
      · rintro ⟨h1 | h1, h2⟩
        · exact absurd (h1 ▸ hx) h2
        · exact ⟨h1, fun hc => hc.elim h2 (fun hrx => h2 (hrx ▸ hx))⟩
    · simp only [dedupKeepFirstAux, if_neg hx, List.mem_cons, ih (seen ++ [x]),
        List.mem_append, List.mem_singleton, List.mem_nil_iff, or_false]
      constructor
      · rintro (h1 | ⟨h1, h2⟩)
        · exact ⟨Or.inl h1, h1 ▸ hx⟩
        · exact ⟨Or.inr h1, fun hc => h2 (Or.inl hc)⟩
      · rintro ⟨h1 | h1, h2⟩
        · exact Or.inl h1
        · by_cases hrx : r = x
          · exact Or.inl hrx
          · exact Or.inr ⟨h1, fun hc => hc.elim h2 hrx⟩

/-- Membership characterization of the source filter: an entry survives
exactly when it occurs in the input and is not the author. -/
lemma mem_filterReviewers (l : List String) (a r : String) :
    r ∈ filterReviewers l a ↔ (r ∈ l ∧ r ≠ a) := by
  rw [filterReviewers_eq_dedup]
  simp [List.mem_filter, dedupKeepFirst, mem_dedupKeepFirstAux, bne_iff_ne]

/-- Every entry of the individuals component of `separateReviewers`
occurs verbatim in the input list. -/
lemma mem_separateReviewers_fst :
    ∀ (l : List String) (r : String), r ∈ (separateReviewers l).1 → r ∈ l := by
  intro l
  induction l with
  | nil => intro r h; simp [separateReviewers] at h
  | cons x xs ih =>
    intro r h
    cases hx : jsIncludes x '/'
    · simp only [separateReviewers, hx, Bool.false_eq_true, if_false,
        List.mem_cons] at h
      rcases h with h | h
      · exact h ▸ List.mem_cons_self x xs
      · exact List.mem_cons_of_mem x (ih r h)
    · simp only [separateReviewers, hx, if_true] at h
      exact List.mem_cons_of_mem x (ih r h)

/-- Claim C6: the aggregation filter equals first-occurrence
deduplication followed by removal of the author, and an entry of the
flattened sequence survives exactly when it is not the author. -/
theorem C6_filterReviewers_dedup_author (l : List String) (a : String) :
    filterReviewers l a = (dedupKeepFirst l).filter (fun r => r != a)
    ∧ ∀ r, r ∈ filterReviewers l a ↔ (r ∈ l ∧ r ≠ a) :=
  ⟨filterReviewers_eq_dedup l a, fun r => mem_filterReviewers l a r⟩

/-- Claim C2 as amended: for every matcher, lookup, mode, rule text,
changed-file set and author, the individuals component of the final
output never contains the author.  (The full original claim is refuted
by `C2_counterexample`: the two components need not be disjoint and the
author may appear among the group slugs.) -/
theorem C2_individuals_never_author (matchesFn : String → String → Bool)
    (lookup : GroupLookup) (agd : Bool) (data : String) (files : List String)
    (author r : String)
    (h : r ∈ (separateReviewers (filterReviewers
      (parseFileData matchesFn lookup agd data files) author)).1) :
    r ≠ author := by
  have h1 := mem_separateReviewers_fst _ r h
  exact ((mem_filterReviewers _ _ _).mp h1).2

/-- Witness for the amended C2 at a concrete input: `bob` is in the
individuals output of a concrete run with author `alice`, and is indeed
not the author. -/
theorem C2_witness :
    ("bob" ∈ (separateReviewers (filterReviewers
      (parseFileData globMatches (fun _ _ => none) false "*.go @bob"
        ["main.go"]) "alice")).1)
    ∧ ("bob" : String) ≠ "alice" :=
  ⟨by decide, C2_individuals_never_author globMatches (fun _ _ => none) false
    "*.go @bob" ["main.go"] "alice" "bob" (by decide)⟩
